import Mathlib

/-!
Verification of the movie-catalog web application (Flask app in
src/project/app.py and FastAPI backend in src/project/backend/main.py)
against its natural-language specification. The Python code is shallowly
embedded: dictionaries become structures whose fields mark an absent key
with Option.none, Python values become the inductive FieldVal, raising
code returns Option or Except, and the JSON user store becomes an explicit
list of user records threaded through the operations.
-/

namespace MovieApp

/-- Value of one field of a movie record as it can occur in the JSON user
store: Python None, a string, an integer, a float (modelled as a rational)
or a list of strings (the genre-list encoding). -/
inductive FieldVal where
  | none
  | str (s : String)
  | int (n : Int)
  | float (q : Rat)
  | list (l : List String)
deriving DecidableEq

/-- Python str() applied to a field value, as the id comparisons in
add_favorite and remove_favorite use it (src/project/app.py lines 424 and
475): str(None) is "None", integers print in decimal, strings are
themselves. Floats and lists do not occur as movie ids in this app; their
str() is modelled by toString on the payload. -/
def pyStr : FieldVal → String
  | .none => "None"
  | .str s => s
  | .int n => toString n
  | .float q => toString q
  | .list l => toString l

/-- Python truthiness of a field value: None, 0, 0.0, the empty string and
the empty list are falsy, everything else is truthy. -/
def truthy : FieldVal → Bool
  | .none => false
  | .str s => s ≠ ""
  | .int n => n ≠ 0
  | .float q => q ≠ 0
  | .list l => !l.isEmpty

/-- One favorite-movie record of the Flask app (src/project/app.py). Each
field models one key of the stored dict: Option.none means the key is
absent (possible in legacy records), some v that the key is present with
Python value v. The id field is total because every favorite this app
creates carries the key and add_favorite reads it with a direct subscript;
an id stored as None is the value FieldVal.none. -/
structure Favorite where
  id : FieldVal := .none
  title : Option FieldVal := Option.none
  poster_url : Option FieldVal := Option.none
  release_date : Option FieldVal := Option.none
  rating : Option FieldVal := Option.none
  director : Option FieldVal := Option.none
  runtime : Option FieldVal := Option.none
  genres : Option FieldVal := Option.none
  imdbId : Option FieldVal := Option.none
  imdbRating : Option FieldVal := Option.none
deriving DecidableEq

/-- One user record of the Flask app user store: username, plaintext
password and the ordered favorites sequence. -/
structure User where
  username : String
  password : String
  favorites : List Favorite
deriving DecidableEq

/-- Parsed JSON document of the user store: an array of user records, or
any other JSON value. -/
inductive StoreDoc where
  | arr (users : List User)
  | nonList
deriving DecidableEq

/-- State of the users.json file as load_users can encounter it. -/
inductive StoreFile where
  | absent
  | unreadable
  | malformed
  | wellFormed (doc : StoreDoc)
deriving DecidableEq

/-- Model of the Flask load_users (src/project/app.py lines 270 to 281):
an absent file, an OSError and a JSONDecodeError all give the empty list;
a well formed document gives its array when it is one and, thanks to the
isinstance list check on line 281, the empty list otherwise. The backend
load_users lacks that final check and is modelled separately below. -/
def load_users : StoreFile → List User
  | .absent => []
  | .unreadable => []
  | .malformed => []
  | .wellFormed (.arr users) => users
  | .wellFormed .nonList => []

/-- Model of find_user (src/project/app.py lines 289 to 298) over the list
load_users returns: a falsy (empty) username gives None, otherwise the
first user with that username. -/
def find_user (username : String) (users : List User) : Option User :=
  if username = "" then Option.none
  else users.find? (fun u => u.username = username)

/-- Model of update_user (src/project/app.py lines 300 to 311): replace the
first user whose username matches and keep the rest; for a username absent
from the list the loop runs out and the list is saved unchanged, so nothing
is inserted. -/
def update_user (user : User) : List User → List User
  | [] => []
  | u :: rest =>
    if u.username = user.username then user :: rest
    else u :: update_user user rest

/-- Form data of one add_favorite request: each movie field as submitted,
None when the field is missing from the form. -/
structure AddForm where
  id : Option String := Option.none
  title : Option String := Option.none
  poster_url : Option String := Option.none
  release_date : Option String := Option.none
  rating : Option String := Option.none
  director : Option String := Option.none
  runtime : Option String := Option.none
  genres : Option String := Option.none
deriving DecidableEq

/-- request.form.get gives the submitted string or None. -/
def formVal : Option String → FieldVal
  | Option.none => .none
  | some s => .str s

/-- Favorite dict built by add_favorite (src/project/app.py lines 425 to
426): every movie field key is present, each value the submitted string or
None; the cache keys imdbId and imdbRating are absent. -/
def favorite_from_form (form : AddForm) : Favorite where
  id := formVal form.id
  title := some (formVal form.title)
  poster_url := some (formVal form.poster_url)
  release_date := some (formVal form.release_date)
  rating := some (formVal form.rating)
  director := some (formVal form.director)
  runtime := some (formVal form.runtime)
  genres := some (formVal form.genres)
  imdbId := Option.none
  imdbRating := Option.none

/-- Model of the membership test and append of add_favorite
(src/project/app.py lines 420 to 427): the favorite is appended only when
no existing favorite has the same id after str() conversion on both
sides. -/
def add_favorite (form : AddForm) (favs : List Favorite) : List Favorite :=
  if favs.any (fun f => pyStr f.id = pyStr (formVal form.id)) then favs
  else favs ++ [favorite_from_form form]

/-- Model of remove_favorite (src/project/app.py lines 474 to 476): keep
exactly the favorites whose id differs from the submitted one after str()
conversion on both sides. -/
def remove_favorite (movie_id : Option String) (favs : List Favorite) : List Favorite :=
  favs.filter (fun f => pyStr f.id ≠ pyStr (formVal movie_id))

/-- Movie entry of the FastAPI backend list: add_to_list
(src/project/backend/main.py) appends dicts with an integer id and a
string title. -/
structure BMovie where
  id : Int
  title : String
deriving DecidableEq

/-- User record of the FastAPI backend store: username, plaintext password
and the list key. Registration (main.py lines 99 to 104) always creates
the list key, so it is total here. -/
structure BUser where
  username : String
  password : String
  list : List BMovie
deriving DecidableEq

/-- Parsed JSON document of the store as the backend sees it: an array of
backend user records, or any other JSON value. -/
inductive BStoreDoc where
  | arr (users : List BUser)
  | nonList
deriving DecidableEq

/-- State of the users.json file as the backend load_users can encounter
it. -/
inductive BStoreFile where
  | absent
  | unreadable
  | malformed
  | wellFormed (doc : BStoreDoc)
deriving DecidableEq

/-- Model of the backend load_users (src/project/backend/main.py lines 34
to 42): an absent file, an OSError and a JSONDecodeError give the empty
list, but the parsed document is returned with NO isinstance list check,
so a well formed document that is not a list is passed through as-is
rather than treated as an empty store. -/
def backend_load_users : BStoreFile → BStoreDoc
  | .absent => .arr []
  | .unreadable => .arr []
  | .malformed => .arr []
  | .wellFormed doc => doc

/-- Model of the backend find_user (src/project/backend/main.py lines 50
to 55): the first user of a fresh load whose username matches; unlike the
Flask find_user it has no falsy-username bailout. -/
def backend_find_user (username : String) (users : List BUser) : Option BUser :=
  users.find? (fun u => u.username = username)

/-- Model of delete_from_list (src/project/backend/main.py lines 167 to
186) at the level of the persisted store. The route loads the users list,
then find_user loads the file AGAIN, so the record it filters belongs to
a second object graph; save_users(users) writes the first, unmodified
load. The first component is the HTTP outcome (404 for an unknown user
or an absent id, else success carrying the filtered list the handler
computed in memory); the second component is the store as persisted,
which is the original store on every path. -/
def delete_from_list (username : String) (movie_id : Int) (store : List BUser) :
    Except Nat (List BMovie) × List BUser :=
  match backend_find_user username store with
  | Option.none => (.error 404, store)
  | some user =>
    if (user.list.filter (fun m => m.id ≠ movie_id)).length = user.list.length then
      (.error 404, store)
    else (.ok (user.list.filter (fun m => m.id ≠ movie_id)), store)

/-- Model of add_to_list (src/project/backend/main.py lines 128 to 150)
at the level of the persisted store: 400 for a falsy username, 404 for an
unknown user, 400 when the id is already in the loaded record, else
success carrying the appended list the handler computed. The append is
made onto a record from a second load while save_users writes the first,
unmodified load, so the persisted store (second component) is the
original store on every path. -/
def add_to_list (username : String) (movie_id : Int) (title : String)
    (store : List BUser) : Except Nat (List BMovie) × List BUser :=
  if username = "" then (.error 400, store)
  else
    match backend_find_user username store with
    | Option.none => (.error 404, store)
    | some user =>
      if user.list.any (fun m => m.id = movie_id) then (.error 400, store)
      else (.ok (user.list ++ [⟨movie_id, title⟩]), store)

/-- One favorites-membership operation of the Flask app. -/
inductive FavOp where
  | add (form : AddForm)
  | del (movie_id : Option String)

/-- Run one membership operation on a favorites sequence. -/
def applyFavOp (favs : List Favorite) : FavOp → List Favorite
  | .add form => add_favorite form favs
  | .del movie_id => remove_favorite movie_id favs

/-- Run a sequence of membership operations left to right. -/
def applyFavOps (favs : List Favorite) (ops : List FavOp) : List Favorite :=
  ops.foldl applyFavOp favs

/-- Invariant of claim C4: at most one favorite per movie id, ids compared
as strings the way the code compares them. -/
def UniqueIds (favs : List Favorite) : Prop :=
  favs.Pairwise (fun a b => pyStr a.id ≠ pyStr b.id)

/-! ## Claim C8 -/

/-- Counterexample to claim C8 as stated: the backend load_users
(src/project/backend/main.py lines 34 to 42) has no isinstance list
check, so a well formed persisted document that is NOT a list is
returned as-is rather than recovered as the empty store. -/
theorem backend_load_users_cex :
    backend_load_users (.wellFormed .nonList) = .nonList ∧
    backend_load_users (.wellFormed .nonList) ≠ .arr [] :=
  ⟨rfl, by decide⟩

/-- Claim C8 (amended): the Flask load_users returns the empty list for
an absent file, an unreadable file, malformed JSON and a well formed
non-list document, returns a well formed array as is, and every outcome
is one of the two, so store corruption or absence is recovered locally as
an empty store. The backend load_users recovers an absent, unreadable or
malformed file as the empty list, but performs no isinstance list check:
a well formed document is passed through whatever it is, so a non-list
document is NOT recovered as an empty store there. -/
theorem load_users_recovers_empty (users : List User) :
    load_users .absent = [] ∧
    load_users .unreadable = [] ∧
    load_users .malformed = [] ∧
    load_users (.wellFormed .nonList) = [] ∧
    load_users (.wellFormed (.arr users)) = users ∧
    (∀ st : StoreFile, load_users st = [] ∨
      ∃ us : List User, st = .wellFormed (.arr us) ∧ load_users st = us) ∧
    backend_load_users .absent = .arr [] ∧
    backend_load_users .unreadable = .arr [] ∧
    backend_load_users .malformed = .arr [] ∧
    (∀ doc : BStoreDoc, backend_load_users (.wellFormed doc) = doc) := by
  refine ⟨rfl, rfl, rfl, rfl, rfl, ?_, rfl, rfl, rfl, fun doc => rfl⟩
  intro st
  match st with
  | .absent => exact Or.inl rfl
  | .unreadable => exact Or.inl rfl
  | .malformed => exact Or.inl rfl
  | .wellFormed .nonList => exact Or.inl rfl
  | .wellFormed (.arr us) => exact Or.inr ⟨us, rfl, rfl⟩

/-! ## Claim C1 -/

/-- Counterexample to claim C1 as stated: for a user record new to the
store, update_user inserts nothing, so the following find_user returns
none rather than a record equal to the argument; and for a stored record
whose username is the empty string, find_user bails out on the falsy
username and again returns none. -/
theorem upsert_then_find_cex :
    find_user "bob" (update_user ⟨"bob", "pw", []⟩ []) = Option.none ∧
    find_user "" (update_user ⟨"", "pw", []⟩ [⟨"", "old", []⟩]) = Option.none :=
  ⟨rfl, rfl⟩

/-- Claim C1 (amended): for every user record U with a nonempty username
such that some stored record has the same username, find_user after
update_user returns a record equal to U field for field, in the absence of
concurrent interleaving. The unamended claim also covered records new to
the store; the counterexample shows update_user does not insert those. -/
theorem find_user_after_update_user (U : User) (store : List User)
    (hname : U.username ≠ "")
    (hmem : ∃ u ∈ store, u.username = U.username) :
    find_user U.username (update_user U store) = some U := by
  induction store with
  | nil => simp at hmem
  | cons u rest ih =>
    rw [update_user]
    by_cases h : u.username = U.username
    · simp only [h, if_pos rfl, find_user, if_neg hname]
      simp [List.find?]
    · rw [if_neg h]
      have hmem₂ : ∃ v ∈ rest, v.username = U.username := by
        rcases hmem with ⟨v, hv, hvu⟩
        rcases List.mem_cons.mp hv with rfl | hv₂
        · exact absurd hvu h
        · exact ⟨v, hv₂, hvu⟩
      have ihr := ih hmem₂
      simp only [find_user, if_neg hname] at ihr ⊢
      rw [List.find?_cons_of_neg, ihr]
      simp [h]

/-- Witness for the amended claim C1 at a concrete store holding the
username already. -/
theorem find_user_after_update_user_witness :
    find_user "alice" (update_user ⟨"alice", "new", []⟩ [⟨"alice", "old", []⟩]) =
      some ⟨"alice", "new", []⟩ :=
  find_user_after_update_user ⟨"alice", "new", []⟩ [⟨"alice", "old", []⟩]
    (by decide) ⟨⟨"alice", "old", []⟩, by simp, rfl⟩

/-! ## Claim C2 -/

/-- Counterexample to claim C2 as stated, at concrete inputs to the
backend route: removing an id that is not present is an HTTP 404 error,
not a no-op; and even removing an id that IS present reports success yet
leaves the persisted store unchanged, because the route filters a record
from a second load of the file while saving the first, unmodified load,
so the matching favorite is not actually removed. -/
theorem remove_absent_id_cex :
    (delete_from_list "ann" 550 [⟨"ann", "pw", [⟨1, "Up"⟩]⟩]).1 = .error 404 ∧
    (delete_from_list "ann" 1 [⟨"ann", "pw", [⟨1, "Up"⟩]⟩]).1 = .ok [] ∧
    (delete_from_list "ann" 1 [⟨"ann", "pw", [⟨1, "Up"⟩]⟩]).2 =
      [⟨"ann", "pw", [⟨1, "Up"⟩]⟩] :=
  ⟨rfl, rfl, rfl⟩

/-- Claim C2 (amended): in the Flask app, remove_favorite removes every
favorite whose id matches the submitted one under str() conversion,
preserves the relative order of the remaining favorites (the result is a
sublist of the input), is idempotent, and treats an absent id as a no-op
rather than an error. In the FastAPI backend, removing an id absent from
the loaded record (or naming an unknown user) raises HTTP 404; when a
match exists the handler filters, order-preserving, a record obtained
from a second load of the store, but save_users writes the first,
unmodified load, so the persisted store is left unchanged by every delete
request and nothing is actually removed. -/
theorem remove_favorite_spec (movie_id : Option String) (favs : List Favorite)
    (uname : String) (bid : Int) (store : List BUser) :
    (∀ f ∈ remove_favorite movie_id favs, pyStr f.id ≠ pyStr (formVal movie_id)) ∧
    (remove_favorite movie_id favs).Sublist favs ∧
    remove_favorite movie_id (remove_favorite movie_id favs) =
      remove_favorite movie_id favs ∧
    ((∀ f ∈ favs, pyStr f.id ≠ pyStr (formVal movie_id)) →
      remove_favorite movie_id favs = favs) ∧
    (delete_from_list uname bid store).2 = store ∧
    (backend_find_user uname store = Option.none →
      (delete_from_list uname bid store).1 = .error 404) ∧
    (∀ user, backend_find_user uname store = some user →
      ((∀ m ∈ user.list, m.id ≠ bid) →
        (delete_from_list uname bid store).1 = .error 404) ∧
      ((∃ m ∈ user.list, m.id = bid) →
        (delete_from_list uname bid store).1 =
          .ok (user.list.filter (fun m => m.id ≠ bid)))) := by
  refine ⟨?_, ?_, ?_, ?_, ?_, ?_, ?_⟩
  · intro f hf
    simpa using (List.mem_filter.mp hf).2
  · exact List.filter_sublist favs
  · simp only [remove_favorite]
    apply List.filter_eq_self.mpr
    intro f hf
    exact (List.mem_filter.mp hf).2
  · intro h
    rw [remove_favorite, List.filter_eq_self]
    intro f hf
    simpa using h f hf
  · rw [delete_from_list]
    cases hu : backend_find_user uname store with
    | none => rfl
    | some user =>
      dsimp only
      split <;> rfl
  · intro hu
    rw [delete_from_list, hu]
  · intro user hu
    constructor
    · intro h
      rw [delete_from_list, hu]
      simp only [ne_eq]
      have heq : List.filter (fun m => decide ¬m.id = bid) user.list = user.list :=
        List.filter_eq_self.mpr (fun m hm => by simpa using h m hm)
      rw [heq, if_pos rfl]
    · rintro ⟨m, hm, hid⟩
      rw [delete_from_list, hu]
      simp only [ne_eq]
      have hlt : (List.filter (fun x => decide ¬x.id = bid) user.list).length
          < user.list.length :=
        List.length_filter_lt_length_iff_exists.mpr ⟨m, hm, by simp [hid]⟩
      rw [if_neg (Nat.ne_of_lt hlt)]

/-! ## Claim C4 -/

/-- Helper: the favorite appended by add_favorite carries the submitted
id value. -/
theorem favorite_from_form_id (form : AddForm) :
    (favorite_from_form form).id = formVal form.id := rfl

/-- Helper: after add_favorite, some favorite always matches the submitted
id under str() conversion. -/
theorem add_favorite_has_id (form : AddForm) (favs : List Favorite) :
    (add_favorite form favs).any
      (fun f => pyStr f.id = pyStr (formVal form.id)) = true := by
  rw [add_favorite]
  by_cases hmem : favs.any (fun f => pyStr f.id = pyStr (formVal form.id)) = true
  · rw [if_pos hmem]
    exact hmem
  · rw [if_neg hmem, List.any_append]
    apply Bool.or_eq_true_iff.mpr
    right
    simp [favorite_from_form_id]

/-- Helper: add_favorite is idempotent on the stored sequence. -/
theorem add_favorite_idem (form : AddForm) (favs : List Favorite) :
    add_favorite form (add_favorite form favs) = add_favorite form favs := by
  conv_lhs => rw [add_favorite]
  rw [if_pos (add_favorite_has_id form favs)]

/-- Helper: add_favorite preserves the at-most-one-per-id invariant. -/
theorem uniqueIds_add (form : AddForm) (favs : List Favorite)
    (h : UniqueIds favs) : UniqueIds (add_favorite form favs) := by
  rw [add_favorite]
  by_cases hmem : favs.any (fun f => pyStr f.id = pyStr (formVal form.id)) = true
  · rw [if_pos hmem]
    exact h
  · rw [if_neg hmem]
    rw [UniqueIds, List.pairwise_append]
    refine ⟨h, List.pairwise_singleton _ _, ?_⟩
    intro a ha b hb
    rcases List.mem_singleton.mp hb with rfl
    rw [favorite_from_form_id]
    simp only [List.any_eq_true, decide_eq_true_eq] at hmem
    push_neg at hmem
    exact hmem a ha

/-- Helper: remove_favorite preserves the at-most-one-per-id invariant. -/
theorem uniqueIds_del (movie_id : Option String) (favs : List Favorite)
    (h : UniqueIds favs) : UniqueIds (remove_favorite movie_id favs) :=
  List.Pairwise.sublist (List.filter_sublist favs) h

/-- Helper: every sequence of add and remove operations preserves the
at-most-one-per-id invariant. -/
theorem uniqueIds_applyFavOps (ops : List FavOp) (favs : List Favorite)
    (h : UniqueIds favs) : UniqueIds (applyFavOps favs ops) := by
  induction ops generalizing favs with
  | nil => exact h
  | cons op rest ih =>
    rw [applyFavOps, List.foldl_cons]
    refine ih (applyFavOp favs op) ?_
    cases op with
    | add form => exact uniqueIds_add form favs h
    | del movie_id => exact uniqueIds_del movie_id favs h

/-- Counterexample to claim C4 as stated, at concrete inputs to the
backend route it cites: add_to_list reports success yet persists the
original store, because the append is made onto a record from a second
load of the file while save_users writes the first, unmodified load; so
the second add of the same id finds no duplicate (no 400), reports
success again, and the persisted store still holds ZERO favorites with
that id, not exactly one. -/
theorem add_to_list_lost_write_cex :
    (add_to_list "ann" 550 "Fight Club" [⟨"ann", "pw", []⟩]).1 =
      .ok [⟨550, "Fight Club"⟩] ∧
    (add_to_list "ann" 550 "Fight Club" [⟨"ann", "pw", []⟩]).2 =
      [⟨"ann", "pw", []⟩] ∧
    (add_to_list "ann" 550 "Fight Club"
        (add_to_list "ann" 550 "Fight Club" [⟨"ann", "pw", []⟩]).2).1 =
      .ok [⟨550, "Fight Club"⟩] ∧
    (add_to_list "ann" 550 "Fight Club"
        (add_to_list "ann" 550 "Fight Club" [⟨"ann", "pw", []⟩]).2).2 =
      [⟨"ann", "pw", []⟩] :=
  ⟨rfl, rfl, rfl, rfl⟩

/-- Claim C4 (amended): in the Flask app, every sequence of add and remove
operations preserves the invariant that the favorites sequence has at
most one entry per movie id (ids compared as strings the way the code
compares them); add_favorite is a no-op on the sequence when a favorite
with the same id already exists; adding twice equals adding once; after
adding the same id twice the number of favorites with that id is the
maximum of 1 and the prior count, hence exactly one when the id was new
or the invariant held. In the FastAPI backend, add_to_list answers 400
on a duplicate in the loaded record and otherwise computes the appended
list, but it persists the first, unmodified load of the store on every
path, so no add ever reaches the store and adding the same movie id
twice yields zero persisted favorites with that id, not one; the
persisted at-most-one invariant is preserved only because the store
never changes. -/
theorem favorites_invariant (favs : List Favorite) (ops : List FavOp)
    (form : AddForm) (uname : String) (bid : Int) (btitle : String)
    (store : List BUser) :
    (UniqueIds favs → UniqueIds (applyFavOps favs ops)) ∧
    ((∃ f ∈ favs, pyStr f.id = pyStr (formVal form.id)) →
      add_favorite form favs = favs) ∧
    add_favorite form (add_favorite form favs) = add_favorite form favs ∧
    ((add_favorite form (add_favorite form favs)).countP
        (fun f => pyStr f.id = pyStr (formVal form.id)) =
      max 1 (favs.countP (fun f => pyStr f.id = pyStr (formVal form.id)))) ∧
    (add_to_list uname bid btitle store).2 = store ∧
    (uname ≠ "" → ∀ user, backend_find_user uname store = some user →
      (user.list.any (fun m => m.id = bid) = true →
        (add_to_list uname bid btitle store).1 = .error 400) ∧
      (user.list.any (fun m => m.id = bid) = false →
        (add_to_list uname bid btitle store).1 =
          .ok (user.list ++ [⟨bid, btitle⟩]))) := by
  refine ⟨uniqueIds_applyFavOps ops favs, ?_, add_favorite_idem form favs, ?_, ?_, ?_⟩
  · rintro ⟨f, hf, hid⟩
    have hany : favs.any (fun f => pyStr f.id = pyStr (formVal form.id)) = true :=
      List.any_eq_true.mpr ⟨f, hf, by simpa using hid⟩
    rw [add_favorite, if_pos hany]
  · rw [add_favorite_idem form favs]
    by_cases hmem : favs.any (fun f => pyStr f.id = pyStr (formVal form.id)) = true
    · have h1 : add_favorite form favs = favs := by rw [add_favorite, if_pos hmem]
      rw [h1]
      have hpos : 0 < favs.countP (fun f => pyStr f.id = pyStr (formVal form.id)) := by
        apply List.countP_pos_iff.mpr
        rcases List.any_eq_true.mp hmem with ⟨f, hf, hp⟩
        exact ⟨f, hf, hp⟩
      omega
    · have h1 : add_favorite form favs = favs ++ [favorite_from_form form] := by
        rw [add_favorite, if_neg hmem]
      have hzero : favs.countP (fun f => pyStr f.id = pyStr (formVal form.id)) = 0 := by
        apply List.countP_eq_zero.mpr
        intro f hf
        simp only [List.any_eq_true] at hmem
        push_neg at hmem
        exact hmem f hf
      rw [h1, List.countP_append, hzero]
      simp [favorite_from_form_id]
  · rw [add_to_list]
    by_cases hemp : uname = ""
    · rw [if_pos hemp]
    · rw [if_neg hemp]
      cases hu : backend_find_user uname store with
      | none => rfl
      | some user =>
        dsimp only
        split <;> rfl
  · intro hne user hu
    constructor
    · intro hany
      simp only [add_to_list, if_neg hne, hu, hany, if_true]
    · intro hnone
      simp only [add_to_list, if_neg hne, hu, hnone, Bool.false_eq_true, if_false]

/-! ## Claim C10 -/

/-- Claim C10: add_favorite and remove_favorite compare movie ids only
after str() conversion on both sides, so an id stored as the integer n and
one submitted as its decimal string denote the same favorite: adding the
string form when the integer form is present is a no-op, removing by the
submitted string removes entries stored in either form, and concretely for
550 the integer-stored favorite blocks a string-form add and is removed by
a string-form remove. -/
theorem string_id_normalization (n : Int) (favs : List Favorite) (form : AddForm) :
    (pyStr (FieldVal.int n) = toString n ∧
      pyStr (FieldVal.str (toString n)) = toString n) ∧
    (form.id = some (toString n) → (∃ f ∈ favs, f.id = .int n) →
      add_favorite form favs = favs) ∧
    (∀ f ∈ remove_favorite (some (toString n)) favs,
      f.id ≠ .int n ∧ f.id ≠ .str (toString n)) ∧
    add_favorite { id := some "550" } [{ id := .int 550 }] = [{ id := .int 550 }] ∧
    remove_favorite (some "550") [{ id := .int 550 }, { id := .str "550" }] = [] := by
  refine ⟨⟨rfl, rfl⟩, ?_, ?_, by decide, by decide⟩
  · rintro hid ⟨f, hf, hfid⟩
    have hany : favs.any (fun f => pyStr f.id = pyStr (formVal form.id)) = true := by
      apply List.any_eq_true.mpr
      refine ⟨f, hf, ?_⟩
      rw [hid, hfid]
      simp [pyStr, formVal]
    rw [add_favorite, if_pos hany]
  · intro f hf
    have hne : pyStr f.id ≠ pyStr (formVal (some (toString n))) := by
      simpa using (List.mem_filter.mp hf).2
    constructor
    · intro hc
      apply hne
      rw [hc]
      rfl
    · intro hc
      apply hne
      rw [hc]
      rfl

/-! ## Claim C5 -/

/-- Python str.strip() restricted to whitespace: drop leading and trailing
whitespace characters. -/
def pyStrip (s : String) : String :=
  String.mk (((s.toList.dropWhile Char.isWhitespace).reverse.dropWhile
    Char.isWhitespace).reverse)

/-- Python str.split(",") on the character list: split at every comma,
giving one more part than there are commas. -/
def splitCommaChars : List Char → List (List Char)
  | [] => [[]]
  | c :: rest =>
    match splitCommaChars rest with
    | [] => [[c]]
    | part :: parts =>
      if c = ',' then [] :: part :: parts
      else (c :: part) :: parts

/-- Genre contribution of one favorite in the wrapped aggregation
(src/project/app.py lines 506 to 512): a falsy genres value (absent key,
None, empty string, empty list, zero) contributes nothing; a nonempty
string is split on commas with each part stripped; a nonempty list is
appended as is; a truthy number is not iterable, so list.extend raises
TypeError, modelled as none. -/
def genre_strings? (f : Favorite) : Option (List String) :=
  match f.genres with
  | Option.none => some []
  | some v =>
    if truthy v then
      match v with
      | .str s => some ((splitCommaChars s.toList).map (fun cs => pyStrip (String.mk cs)))
      | .list l => some l
      | _ => Option.none
    else some []

/-- Flattened genre multiset of the wrapped view: the contributions of the
favorites concatenated in order; none when some favorite raises. -/
def all_genres? : List Favorite → Option (List String)
  | [] => some []
  | f :: rest =>
    match genre_strings? f, all_genres? rest with
    | some gs, some gl => some (gs ++ gl)
    | _, _ => Option.none

/-- One step of building the first-seen key order: a Python Counter keeps
its keys in insertion order, which is first-encounter order of the scanned
list. -/
def fsStep (acc : List String) (g : String) : List String :=
  if g ∈ acc then acc else acc ++ [g]

/-- Keys of Counter(l) in insertion order: each element of l at its first
occurrence. -/
def firstSeen (l : List String) : List String :=
  l.foldl fsStep []

/-- One step of the most-common scan: keep the current best key unless the
next key has a strictly greater count. -/
def mcStep (l : List String) (best : Option String) (g : String) : Option String :=
  match best with
  | Option.none => some g
  | some b => if l.count b < l.count g then some g else some b

/-- Counter(l).most_common(1): the first key in first-seen order whose
count no later key strictly beats, that is the first key of maximal
count (heapq.nlargest is documented as sorted(..., reverse=True)[:n],
which is stable, so ties go to the earliest-inserted key). -/
def mostCommon? (l : List String) : Option String :=
  (firstSeen l).foldl (mcStep l) Option.none

/-- Model of the most_common_genre computation of the wrapped view
(src/project/app.py lines 504 to 514): flatten the genre data, then take
the most common element, None when there is no genre data; the outer none
models the TypeError raised on a truthy non-iterable genres value. -/
def most_common_genre (favs : List Favorite) : Option (Option String) :=
  match all_genres? favs with
  | Option.none => Option.none
  | some gs => some (mostCommon? gs)

/-- Helper: the most-common scan never turns a candidate into none. -/
theorem mcStep_ne_none (l : List String) (best : Option String) (g : String) :
    mcStep l best g ≠ Option.none := by
  cases best with
  | none => simp [mcStep]
  | some b =>
    rw [mcStep]
    split <;> simp

/-- Helper: one scan step keeps some key whose count is at least the count
of the scanned key and at least the count of the previous best, and that
key is the scanned key or the previous best. -/
theorem mcStep_spec (l : List String) (best : Option String) (g : String) :
    ∃ m, mcStep l best g = some m ∧ l.count g ≤ l.count m ∧
      (∀ b, best = some b → l.count b ≤ l.count m) ∧
      (m = g ∨ best = some m) := by
  cases best with
  | none => exact ⟨g, rfl, le_refl _, by simp, Or.inl rfl⟩
  | some b =>
    rw [mcStep]
    by_cases h : l.count b < l.count g
    · rw [if_pos h]
      refine ⟨g, rfl, le_refl _, ?_, Or.inl rfl⟩
      intro b₂ hb₂
      cases hb₂
      omega
    · rw [if_neg h]
      refine ⟨b, rfl, by omega, ?_, Or.inr rfl⟩
      intro b₂ hb₂
      cases hb₂
      omega

/-- Helper: the scan yields none only from an empty candidate list with no
initial best. -/
theorem mcFold_eq_none (l cands : List String) (init : Option String)
    (h : cands.foldl (mcStep l) init = Option.none) :
    init = Option.none ∧ cands = [] := by
  induction cands generalizing init with
  | nil => exact ⟨h, rfl⟩
  | cons c cs ih =>
    rw [List.foldl_cons] at h
    rcases ih (mcStep l init c) h with ⟨hstep, _⟩
    exact absurd hstep (mcStep_ne_none l init c)

/-- Helper: the scan result is the initial best or one of the scanned
keys. -/
theorem mcFold_mem (l cands : List String) (init : Option String) (g : String)
    (h : cands.foldl (mcStep l) init = some g) :
    init = some g ∨ g ∈ cands := by
  induction cands generalizing init with
  | nil => exact Or.inl h
  | cons c cs ih =>
    rw [List.foldl_cons] at h
    rcases ih (mcStep l init c) h with hi | hm
    · rcases mcStep_spec l init c with ⟨m, hm₂, _, _, hval⟩
      rw [hm₂] at hi
      obtain rfl : m = g := Option.some.inj hi
      rcases hval with h₂ | hb
      · refine Or.inr ?_
        rw [h₂]
        exact List.mem_cons_self c cs
      · exact Or.inl hb
    · exact Or.inr (List.mem_cons_of_mem c hm)

/-- Helper: the scan result count dominates the initial best count. -/
theorem mcFold_ge_init (l cands : List String) (b g : String)
    (h : cands.foldl (mcStep l) (some b) = some g) :
    l.count b ≤ l.count g := by
  induction cands generalizing b with
  | nil =>
    cases h
    exact le_refl _
  | cons c cs ih =>
    rw [List.foldl_cons] at h
    rcases mcStep_spec l (some b) c with ⟨m, hm, _, hinit, _⟩
    rw [hm] at h
    exact le_trans (hinit b rfl) (ih m h)

/-- Helper: the scan result count dominates every scanned key count. -/
theorem mcFold_ge_mem (l cands : List String) (init : Option String) (g : String)
    (h : cands.foldl (mcStep l) init = some g) :
    ∀ x ∈ cands, l.count x ≤ l.count g := by
  induction cands generalizing init with
  | nil =>
    intro x hx
    cases hx
  | cons c cs ih =>
    intro x hx
    rw [List.foldl_cons] at h
    rcases mcStep_spec l init c with ⟨m, hm, hc, _, _⟩
    rw [hm] at h
    rcases List.mem_cons.mp hx with rfl | hxs
    · exact le_trans hc (mcFold_ge_init l cs m g h)
    · exact ih (some m) h x hxs

/-- Helper: the scan result is the initial best, or a scanned key that
strictly beats it. -/
theorem mcFold_beats_init (l cands : List String) (b g : String)
    (h : cands.foldl (mcStep l) (some b) = some g) :
    g = b ∨ (g ∈ cands ∧ l.count b < l.count g) := by
  induction cands generalizing b with
  | nil =>
    cases h
    exact Or.inl rfl
  | cons c cs ih =>
    rw [List.foldl_cons, mcStep] at h
    by_cases hlt : l.count b < l.count c
    · rw [if_pos hlt] at h
      rcases ih c h with h₂ | ⟨hmem, hcnt⟩
      · refine Or.inr ⟨?_, ?_⟩
        · rw [h₂]
          exact List.mem_cons_self c cs
        · rw [h₂]
          exact hlt
      · exact Or.inr ⟨List.mem_cons_of_mem c hmem, lt_trans hlt hcnt⟩
    · rw [if_neg hlt] at h
      rcases ih b h with rfl | ⟨hmem, hcnt⟩
      · exact Or.inl rfl
      · exact Or.inr ⟨List.mem_cons_of_mem c hmem, hcnt⟩

/-- Helper: membership through the first-seen fold. -/
theorem fsFold_mem (cands : List String) : ∀ (acc : List String) (a : String),
    a ∈ cands.foldl fsStep acc ↔ a ∈ acc ∨ a ∈ cands := by
  induction cands with
  | nil =>
    intro acc a
    simp
  | cons c cs ih =>
    intro acc a
    rw [List.foldl_cons, ih, fsStep]
    by_cases hc : c ∈ acc
    · rw [if_pos hc]
      simp only [List.mem_cons]
      constructor
      · tauto
      · rintro (h | rfl | h)
        · exact Or.inl h
        · exact Or.inl hc
        · exact Or.inr h
    · rw [if_neg hc]
      simp only [List.mem_append, List.mem_singleton, List.mem_cons]
      tauto

/-- Helper: the first-seen fold keeps the accumulator free of repeats. -/
theorem fsFold_nodup (cands : List String) : ∀ acc : List String,
    acc.Nodup → (cands.foldl fsStep acc).Nodup := by
  induction cands with
  | nil =>
    intro acc h
    exact h
  | cons c cs ih =>
    intro acc h
    rw [List.foldl_cons]
    apply ih
    rw [fsStep]
    by_cases hc : c ∈ acc
    · rw [if_pos hc]
      exact h
    · rw [if_neg hc]
      refine List.Nodup.append h (List.nodup_singleton c) ?_
      intro a ha hb
      rcases List.mem_singleton.mp hb with rfl
      exact hc ha

/-- Helper: with the accumulator holding exactly the keys of the processed
prefix in strict first-occurrence order, the first-seen fold keeps the
keys in strict first-occurrence order of the full list. -/
theorem fsFold_pairwise (l : List String) : ∀ (rest p acc : List String),
    l = p ++ rest →
    (∀ a, a ∈ acc ↔ a ∈ p) →
    acc.Pairwise (fun a b => l.indexOf a < l.indexOf b) →
    (rest.foldl fsStep acc).Pairwise (fun a b => l.indexOf a < l.indexOf b) := by
  intro rest
  induction rest with
  | nil =>
    intro p acc _ _ hp
    exact hp
  | cons c cs ih =>
    intro p acc hl hmem hp
    rw [List.foldl_cons]
    apply ih (p ++ [c])
    · rw [hl, List.append_assoc]
      rfl
    · intro a
      rw [fsStep]
      by_cases hc : c ∈ acc
      · rw [if_pos hc, hmem a]
        simp only [List.mem_append, List.mem_singleton]
        constructor
        · intro h
          exact Or.inl h
        · rintro (h | rfl)
          · exact h
          · exact (hmem a).mp hc
      · rw [if_neg hc]
        simp [List.mem_append, List.mem_singleton, hmem a]
    · rw [fsStep]
      by_cases hc : c ∈ acc
      · rw [if_pos hc]
        exact hp
      · rw [if_neg hc]
        rw [List.pairwise_append]
        refine ⟨hp, List.pairwise_singleton _ _, ?_⟩
        intro a ha b hb
        rcases List.mem_singleton.mp hb with rfl
        have hap : a ∈ p := (hmem a).mp ha
        have hcp : b ∉ p := fun hcc => hc ((hmem b).mpr hcc)
        rw [hl, List.indexOf_append_of_mem hap, List.indexOf_append_of_not_mem hcp,
          List.indexOf_cons_self]
        have h1 : List.indexOf a p < p.length := List.indexOf_lt_length.mpr hap
        omega

/-- Helper: the keys of firstSeen are exactly the elements of the list. -/
theorem firstSeen_mem (l : List String) (a : String) :
    a ∈ firstSeen l ↔ a ∈ l := by
  rw [firstSeen, fsFold_mem]
  simp

/-- Helper: firstSeen has no repeated key. -/
theorem firstSeen_nodup (l : List String) : (firstSeen l).Nodup :=
  fsFold_nodup l [] List.nodup_nil

/-- Helper: firstSeen lists its keys in strict first-occurrence order. -/
theorem firstSeen_pairwise (l : List String) :
    (firstSeen l).Pairwise (fun a b => l.indexOf a < l.indexOf b) :=
  fsFold_pairwise l l [] [] rfl (by simp) List.Pairwise.nil

/-- Claim C5: most_common_genre maps the flattened genre multiset (comma
separated strings split and trimmed, lists appended as is) through the
most-common scan; the scan yields None exactly when there is no genre
data, and otherwise a genre of maximal occurrence count whose first
occurrence is no later than that of any genre with the same count; on
favorites with genre lists Drama and Action, Drama, and Comedy it gives
Drama. -/
theorem most_common_genre_spec (favs : List Favorite) (gs : List String) :
    most_common_genre favs = (all_genres? favs).map mostCommon? ∧
    (mostCommon? gs = Option.none ↔ gs = []) ∧
    (∀ g, mostCommon? gs = some g →
      g ∈ gs ∧ (∀ x ∈ gs, gs.count x ≤ gs.count g) ∧
      (∀ x ∈ gs, gs.count x = gs.count g → gs.indexOf g ≤ gs.indexOf x)) ∧
    most_common_genre
      [{ genres := some (.list ["Drama", "Action"]) },
       { genres := some (.list ["Drama"]) },
       { genres := some (.list ["Comedy"]) }] = some (some "Drama") := by
  refine ⟨?_, ?_, ?_, by decide⟩
  · cases h : all_genres? favs <;> simp [most_common_genre, h]
  · constructor
    · intro h
      rcases mcFold_eq_none gs (firstSeen gs) Option.none h with ⟨_, hfs⟩
      by_contra hne
      rcases List.exists_mem_of_ne_nil gs hne with ⟨x, hx⟩
      have hxf : x ∈ firstSeen gs := (firstSeen_mem gs x).mpr hx
      rw [hfs] at hxf
      cases hxf
    · rintro rfl
      rfl
  · intro g h
    have hgF : g ∈ firstSeen gs := by
      rcases mcFold_mem gs (firstSeen gs) Option.none g h with habs | hm
      · cases habs
      · exact hm
    refine ⟨(firstSeen_mem gs g).mp hgF, ?_, ?_⟩
    · intro x hx
      exact mcFold_ge_mem gs (firstSeen gs) Option.none g h x
        ((firstSeen_mem gs x).mpr hx)
    · intro x hx hcnt
      by_cases hgx : g = x
      · rw [hgx]
      · have hxF : x ∈ firstSeen gs := (firstSeen_mem gs x).mpr hx
        rcases List.append_of_mem hxF with ⟨A, B, hAB⟩
        have hgAB : g ∈ A ++ x :: B := hAB ▸ hgF
        rcases List.mem_append.mp hgAB with hgA | hgB
        · have hpw := firstSeen_pairwise gs
          rw [hAB, List.pairwise_append] at hpw
          have := hpw.2.2 g hgA x (List.mem_cons_self x B)
          omega
        · rcases List.mem_cons.mp hgB with heq | hgB₂
          · exact absurd heq hgx
          · exfalso
            have hsplit : (x :: B).foldl (mcStep gs) (A.foldl (mcStep gs) Option.none)
                = some g := by
              rw [← List.foldl_append, ← hAB]
              exact h
            rw [List.foldl_cons] at hsplit
            rcases mcStep_spec gs (A.foldl (mcStep gs) Option.none) x
              with ⟨m, hm, hxc, _, hval⟩
            rw [hm] at hsplit
            rcases mcFold_beats_init gs B m g hsplit with rfl | ⟨_, hlt⟩
            · rcases hval with rfl | hprev
              · exact hgx rfl
              · rcases mcFold_mem gs A Option.none g hprev with habs | hgA₂
                · cases habs
                · have hnd := firstSeen_nodup gs
                  rw [hAB, List.nodup_append] at hnd
                  exact hnd.2.2 hgA₂ (List.mem_cons_of_mem x hgB₂)
            · omega

/-! ## Claim C7 -/

/-- Decimal value of a character list of digits. -/
def digitsVal (cs : List Char) : Nat :=
  cs.foldl (fun acc c => 10 * acc + (c.toNat - 48)) 0

/-- Python whitespace strip on a character list. -/
def stripChars (cs : List Char) : List Char :=
  ((cs.dropWhile Char.isWhitespace).reverse.dropWhile Char.isWhitespace).reverse

/-- Python int(str) on the strings this app stores: optional surrounding
whitespace, an optional sign, then decimal digits only; anything else
raises ValueError, modelled as none. Underscore separators and non-ASCII
digits do not occur in this app and are not modelled. -/
def pyInt? (s : String) : Option Int :=
  match stripChars s.toList with
  | [] => Option.none
  | '+' :: ds =>
    if ds ≠ [] ∧ ds.all Char.isDigit then some (digitsVal ds) else Option.none
  | '-' :: ds =>
    if ds ≠ [] ∧ ds.all Char.isDigit then some (-(digitsVal ds : Int)) else Option.none
  | ds =>
    if ds.all Char.isDigit then some (digitsVal ds) else Option.none

/-- Python int() on a float truncates toward zero. -/
def ratTrunc (q : Rat) : Int :=
  if 0 ≤ q then ⌊q⌋ else ⌈q⌉

/-- Runtime contribution of one favorite in the wrapped aggregation
(src/project/app.py line 502): int(fav.get("runtime", 0)) summed over the
favorites whose runtime value is truthy. some none is a skipped favorite
(absent key or falsy value), some (some n) contributes n, and none models
the ValueError or TypeError int() raises on a bad value. -/
def runtime_term? (f : Favorite) : Option (Option Int) :=
  match f.runtime with
  | Option.none => some Option.none
  | some v =>
    if truthy v then
      match v with
      | .int n => some (some n)
      | .float q => some (some (ratTrunc q))
      | .str s =>
        match pyInt? s with
        | some n => some (some n)
        | Option.none => Option.none
      | _ => Option.none
    else some Option.none

/-- Model of total_minutes (src/project/app.py line 502): the sum of the
truthy runtime contributions, none when int() raises on some favorite. -/
def total_minutes? : List Favorite → Option Int
  | [] => some 0
  | f :: rest =>
    match runtime_term? f, total_minutes? rest with
    | some t, some rest₂ => some (t.getD 0 + rest₂)
    | _, _ => Option.none

/-- Hours and minutes shown by the wrapped view (src/project/app.py lines
516 to 517): Python floor division and modulo by 60 applied to the total,
the divmod pair of the claim. -/
def wrapped_time (total : Int) : Int × Int :=
  (Int.fdiv total 60, Int.fmod total 60)

/-- Helper: a defined total is the sum over exactly the favorites with a
known runtime. -/
theorem total_minutes_eq_sum (favs : List Favorite) (total : Int)
    (h : total_minutes? favs = some total) :
    total = (favs.filterMap (fun f => (runtime_term? f).join)).sum := by
  induction favs generalizing total with
  | nil =>
    obtain rfl : (0 : Int) = total := Option.some.inj h
    simp
  | cons f rest ih =>
    rw [total_minutes?] at h
    cases hf : runtime_term? f with
    | none =>
      rw [hf] at h
      simp at h
    | some t =>
      rw [hf] at h
      cases hr : total_minutes? rest with
      | none =>
        rw [hr] at h
        simp at h
      | some r =>
        rw [hr] at h
        obtain rfl : t.getD 0 + r = total := Option.some.inj h
        rw [List.filterMap_cons]
        cases t with
        | none => simpa [hf] using ih r hr
        | some n => simp [hf, ih r hr]

/-- Helper: the total is undefined exactly when int() raises on some
favorite. -/
theorem total_minutes_eq_none (favs : List Favorite) :
    total_minutes? favs = Option.none ↔
      ∃ f ∈ favs, runtime_term? f = Option.none := by
  induction favs with
  | nil => simp [total_minutes?]
  | cons f rest ih =>
    rw [total_minutes?]
    constructor
    · intro h
      cases hf : runtime_term? f with
      | none => exact ⟨f, List.mem_cons_self f rest, hf⟩
      | some t =>
        rw [hf] at h
        cases hr : total_minutes? rest with
        | none =>
          rcases ih.mp hr with ⟨g, hg, hgn⟩
          exact ⟨g, List.mem_cons_of_mem f hg, hgn⟩
        | some r =>
          rw [hr] at h
          simp at h
    · rintro ⟨g, hg, hgn⟩
      rcases List.mem_cons.mp hg with heq | hg₂
      · have hfn : runtime_term? f = Option.none := by
          rw [← heq]
          exact hgn
        rw [hfn]
      · rw [ih.mpr ⟨g, hg₂, hgn⟩]
        cases runtime_term? f <;> rfl

/-- Claim C7: total_minutes is the sum of the runtime contributions of
exactly the favorites with a known (truthy) runtime, the reported hours
and minutes are divmod of the total by 60 (so hours times 60 plus minutes
gives back the total and minutes lies in 0 to 59), and runtimes 90, 45
and 130 total 265 minutes reported as 4 hours and 25 minutes. -/
theorem total_minutes_spec (favs : List Favorite) (total : Int) :
    (total_minutes? favs = some total →
      total = (favs.filterMap (fun f => (runtime_term? f).join)).sum) ∧
    (total_minutes? favs = Option.none ↔
      ∃ f ∈ favs, runtime_term? f = Option.none) ∧
    ((wrapped_time total).1 * 60 + (wrapped_time total).2 = total ∧
      0 ≤ (wrapped_time total).2 ∧ (wrapped_time total).2 < 60) ∧
    total_minutes? [{ runtime := some (.str "90") }, { runtime := some (.str "45") },
      { runtime := some (.str "130") }] = some 265 ∧
    wrapped_time 265 = (4, 25) := by
  refine ⟨total_minutes_eq_sum favs total, total_minutes_eq_none favs,
    ⟨?_, ?_, ?_⟩, by decide, by decide⟩
  · rw [wrapped_time]
    have := Int.fdiv_add_fmod total 60
    omega
  · rw [wrapped_time]
    have h := Int.fmod_eq_emod total (by omega : (0:Int) ≤ 60)
    have := Int.emod_nonneg total (by omega : (60:Int) ≠ 0)
    omega
  · rw [wrapped_time]
    have h := Int.fmod_eq_emod total (by omega : (0:Int) ≤ 60)
    have := Int.emod_lt_of_pos total (by omega : (0:Int) < 60)
    omega

/-! ## Claims C9 and C6 -/

/-- External lookups of the wrapped view as pure oracles: the IMDb id that
TMDb reports for a movie id value (None on any failure or missing field)
and the IMDb rating OMDb reports for an imdbId value (None on any
failure, missing key or N/A rating). -/
structure Oracles where
  imdbIdOf : FieldVal → Option String
  ratingOf : FieldVal → Option Rat

/-- Result of get_or_cache_imdb_rating: the rating (None when
unresolvable), the was_updated flag, and the favorite as the call leaves
it (possibly with imdbId or imdbRating written onto it). -/
structure CacheResult where
  rating : Option Rat
  updated : Bool
  fav : Favorite

/-- Numeric cached rating of a favorite: the isinstance check of
get_or_cache_imdb_rating (src/project/app.py lines 247 to 249) accepts
int and float values only. -/
def cachedRating? (f : Favorite) : Option Rat :=
  match f.imdbRating with
  | some (.int n) => some (n : Rat)
  | some (.float q) => some q
  | _ => Option.none

/-- The imdbId a fresh TMDb lookup would contribute: the oracle answer,
dropped when falsy, as the truthiness guard on line 258 drops it. -/
def fetchedId (o : Oracles) (fav : Favorite) : Option FieldVal :=
  match o.imdbIdOf fav.id with
  | some s => if s = "" then Option.none else some (.str s)
  | Option.none => Option.none

/-- The imdbId value the OMDb lookup uses: a truthy cached one, else a
truthy freshly fetched one. -/
def usedImdbId (o : Oracles) (fav : Favorite) : Option FieldVal :=
  match fav.imdbId with
  | some v => if truthy v then some v else fetchedId o fav
  | Option.none => fetchedId o fav

/-- Fetch path of get_or_cache_imdb_rating once no truthy cached imdbId
exists (src/project/app.py lines 256 to 268): on a successful id lookup
the id is written onto the favorite even when the following rating lookup
fails, but was_updated is set only when the rating lookup succeeds. -/
def fetch_imdb_and_rating (o : Oracles) (fav : Favorite) : CacheResult :=
  match fetchedId o fav with
  | Option.none => ⟨Option.none, false, fav⟩
  | some v =>
    match o.ratingOf v with
    | Option.none => ⟨Option.none, false, { fav with imdbId := some v }⟩
    | some r =>
      ⟨some r, true, { fav with imdbId := some v, imdbRating := some (.float r) }⟩

/-- Model of get_or_cache_imdb_rating (src/project/app.py lines 242 to
268): a numeric cached imdbRating is returned with no update; a falsy
TMDb id is unresolvable; a truthy cached imdbId goes straight to the
rating lookup; otherwise the fetch path runs. -/
def get_or_cache_imdb_rating (o : Oracles) (fav : Favorite) : CacheResult :=
  match cachedRating? fav with
  | some r => ⟨some r, false, fav⟩
  | Option.none =>
    if truthy fav.id then
      match fav.imdbId with
      | some v =>
        if truthy v then
          match o.ratingOf v with
          | Option.none => ⟨Option.none, false, fav⟩
          | some r => ⟨some r, true, { fav with imdbRating := some (.float r) }⟩
        else fetch_imdb_and_rating o fav
      | Option.none => fetch_imdb_and_rating o fav
    else ⟨Option.none, false, fav⟩

/-- The per-favorite results of the rating pass of the wrapped view
(src/project/app.py line 493). -/
def wrapped_results (o : Oracles) (favs : List Favorite) : List CacheResult :=
  favs.map (get_or_cache_imdb_rating o)

/-- The dirty flag of the wrapped view (line 495): true when any favorite
freshly fetched a rating. -/
def wrapped_dirty (o : Oracles) (favs : List Favorite) : Bool :=
  (wrapped_results o favs).any (·.updated)

/-- The resolved ratings list of the wrapped view (line 494). -/
def wrapped_imdb_ratings (o : Oracles) (favs : List Favorite) : List Rat :=
  (wrapped_results o favs).filterMap (·.rating)

/-- Effect of the wrapped route on the persisted store (src/project/app.py
lines 484 to 499): no user or no favorites means no fetching and no
write; otherwise the user with the possibly backfilled favorites is
persisted exactly when the dirty flag is set. -/
def wrapped_effect (o : Oracles) (store : List User) (username : String) : List User :=
  match find_user username store with
  | Option.none => store
  | some user =>
    if user.favorites = [] then store
    else if wrapped_dirty o user.favorites then
      update_user
        { user with favorites := (wrapped_results o user.favorites).map (·.fav) } store
    else store

/-- Python round() half to even on a rational, modelling rounding of the
float average exactly on the rational value. -/
def roundHalfEven (q : Rat) : Int :=
  if q - ⌊q⌋ = 1/2 then (if 2 ∣ ⌊q⌋ then ⌊q⌋ else ⌊q⌋ + 1)
  else round q

/-- round(x, 2) of the averaging code, on the exact rational value. -/
def round2 (q : Rat) : Rat :=
  (roundHalfEven (q * 100) : Rat) / 100

/-- Model of average_rating (src/project/app.py line 518): the mean of the
resolved ratings rounded to two decimals, None when no favorite has a
resolvable rating. -/
def average_rating (ratings : List Rat) : Option Rat :=
  if ratings.isEmpty then Option.none
  else some (round2 (ratings.sum / ratings.length))

/-- Model of the taste label (src/project/app.py lines 521 to 528). -/
def taste_label : Option Rat → Option String
  | Option.none => Option.none
  | some a =>
    if 8 ≤ a then some "Elite taste, you know cinema!"
    else if 6 ≤ a then some "You have good taste!"
    else some "This is questionable, you need to watch better movies!"

/-- The average rating the wrapped view computes. -/
def wrapped_average (o : Oracles) (favs : List Favorite) : Option Rat :=
  average_rating (wrapped_imdb_ratings o favs)

/-- Helper: was_updated is set exactly when the favorite has no numeric
cached rating, a truthy movie id, a usable imdbId, and a successful
rating lookup. -/
theorem get_or_cache_updated_iff (o : Oracles) (fav : Favorite) :
    (get_or_cache_imdb_rating o fav).updated = true ↔
      (cachedRating? fav = Option.none ∧ truthy fav.id = true ∧
        ∃ v r, usedImdbId o fav = some v ∧ o.ratingOf v = some r) := by
  cases hc : cachedRating? fav with
  | some r => simp [get_or_cache_imdb_rating, hc]
  | none =>
    cases hid : truthy fav.id with
    | false => simp [get_or_cache_imdb_rating, hc, hid]
    | true =>
      cases hv : fav.imdbId with
      | some v =>
        cases htv : truthy v with
        | true =>
          cases hr : o.ratingOf v with
          | none =>
            simp [get_or_cache_imdb_rating, usedImdbId, hc, hid, hv, htv, hr]
          | some r =>
            simp [get_or_cache_imdb_rating, usedImdbId, hc, hid, hv, htv, hr]
        | false =>
          cases hf : fetchedId o fav with
          | none =>
            simp [get_or_cache_imdb_rating, fetch_imdb_and_rating, usedImdbId,
              hc, hid, hv, htv, hf]
          | some w =>
            cases hr : o.ratingOf w with
            | none =>
              simp [get_or_cache_imdb_rating, fetch_imdb_and_rating, usedImdbId,
                hc, hid, hv, htv, hf, hr]
            | some r =>
              simp [get_or_cache_imdb_rating, fetch_imdb_and_rating, usedImdbId,
                hc, hid, hv, htv, hf, hr]
      | none =>
        cases hf : fetchedId o fav with
        | none =>
          simp [get_or_cache_imdb_rating, fetch_imdb_and_rating, usedImdbId,
            hc, hid, hv, hf]
        | some w =>
          cases hr : o.ratingOf w with
          | none =>
            simp [get_or_cache_imdb_rating, fetch_imdb_and_rating, usedImdbId,
              hc, hid, hv, hf, hr]
          | some r =>
            simp [get_or_cache_imdb_rating, fetch_imdb_and_rating, usedImdbId,
              hc, hid, hv, hf, hr]

/-- Counterexample to claim C9 as stated: with no cached data, an imdbId
lookup that succeeds and a rating lookup that fails, a detail is freshly
fetched and written onto the in-memory favorite, yet was_updated stays
False and the wrapped view does not persist the user, so persistence is
not equivalent to some rating or detail having been freshly fetched. -/
theorem wrapped_persists_cex :
    ((get_or_cache_imdb_rating
        ⟨fun _ => some "tt0000001", fun _ => Option.none⟩
        { id := .int 1 }).fav.imdbId = some (.str "tt0000001")) ∧
    (({ id := .int 1 } : Favorite).imdbId = Option.none) ∧
    ((get_or_cache_imdb_rating
        ⟨fun _ => some "tt0000001", fun _ => Option.none⟩
        { id := .int 1 }).updated = false) ∧
    (wrapped_dirty ⟨fun _ => some "tt0000001", fun _ => Option.none⟩
        [{ id := .int 1 }] = false) :=
  ⟨rfl, rfl, rfl, rfl⟩

/-- Claim C9 (amended): the wrapped view persists the user exactly when
some favorite freshly fetched a rating through to success: the dirty flag
is set iff some favorite has no numeric cached rating, a truthy movie id,
a usable imdbId and a successful rating lookup. A fresh imdbId fetch
whose rating lookup fails mutates only the in-memory favorite, and when
no favorite freshly fetched a rating the persisted store is left
unchanged. -/
theorem wrapped_persists_iff (o : Oracles) (store : List User) (username : String)
    (user : User) :
    (wrapped_dirty o user.favorites = true ↔
      ∃ f ∈ user.favorites, (get_or_cache_imdb_rating o f).updated = true) ∧
    (∀ f : Favorite, (get_or_cache_imdb_rating o f).updated = true ↔
      (cachedRating? f = Option.none ∧ truthy f.id = true ∧
        ∃ v r, usedImdbId o f = some v ∧ o.ratingOf v = some r)) ∧
    (find_user username store = Option.none →
      wrapped_effect o store username = store) ∧
    (find_user username store = some user → wrapped_dirty o user.favorites = false →
      wrapped_effect o store username = store) := by
  refine ⟨?_, fun f => get_or_cache_updated_iff o f, ?_, ?_⟩
  · simp [wrapped_dirty, wrapped_results, List.any_map, List.any_eq_true,
      Function.comp]
  · intro h
    rw [wrapped_effect, h]
  · intro h hd
    rw [wrapped_effect, h]
    simp [hd]

/-- Helper: round() of an integer value is that integer. -/
theorem roundHalfEven_intCast (n : Int) : roundHalfEven (n : Rat) = n := by
  rw [roundHalfEven, Int.floor_intCast]
  rw [if_neg (by norm_num)]
  exact round_intCast n

/-- Claim C6: average_rating is the mean of the resolved external ratings
rounded to two decimal places and None exactly when no rating resolves;
the qualitative label thresholds are at 8.0 and 6.0; and two favorites
with cached ratings 8.0 and 6.0 average to 7.0 with the good-taste
label. -/
theorem average_rating_spec (o : Oracles) (favs : List Favorite)
    (ratings : List Rat) (a : Rat) :
    (wrapped_average o favs = average_rating (wrapped_imdb_ratings o favs)) ∧
    average_rating [] = Option.none ∧
    (ratings ≠ [] →
      average_rating ratings = some (round2 (ratings.sum / ratings.length))) ∧
    (8 ≤ a → taste_label (some a) = some "Elite taste, you know cinema!") ∧
    (6 ≤ a → a < 8 → taste_label (some a) = some "You have good taste!") ∧
    (a < 6 → taste_label (some a) =
      some "This is questionable, you need to watch better movies!") ∧
    (wrapped_average ⟨fun _ => Option.none, fun _ => Option.none⟩
        [{ imdbRating := some (.float 8) }, { imdbRating := some (.float 6) }] =
      some 7 ∧
      taste_label (some 7) = some "You have good taste!") := by
  refine ⟨rfl, rfl, ?_, ?_, ?_, ?_, ?_, ?_⟩
  · intro h
    rw [average_rating, if_neg (by simpa using h)]
  · intro h
    rw [taste_label, if_pos h]
  · intro h₁ h₂
    rw [taste_label, if_neg (by linarith), if_pos h₁]
  · intro h
    rw [taste_label, if_neg (by linarith), if_neg (by linarith)]
  · have hpipe : wrapped_average ⟨fun _ => Option.none, fun _ => Option.none⟩
        [{ imdbRating := some (.float 8) }, { imdbRating := some (.float 6) }] =
        average_rating [8, 6] := rfl
    rw [hpipe, average_rating, if_neg (by simp)]
    have havg : (([8, 6] : List Rat).sum / (([8, 6] : List Rat).length : Rat)) = 7 := by
      norm_num
    rw [havg]
    have h700 : (7 : Rat) * 100 = ((700 : Int) : Rat) := by norm_num
    rw [round2, h700, roundHalfEven_intCast]
    norm_num
  · rw [taste_label, if_neg (by norm_num), if_pos (by norm_num)]

/-! ## Claim C3 -/

/-- Digits-and-optional-fraction part of Python float(str) once the sign
is consumed. -/
def pyFloatCore? (sign : Int) (ds : List Char) : Option Rat :=
  match ds.span Char.isDigit with
  | (intPart, []) =>
    if intPart.isEmpty then Option.none
    else some ((sign * digitsVal intPart : Int) : Rat)
  | (intPart, '.' :: fracPart) =>
    if fracPart.all Char.isDigit ∧ (¬intPart.isEmpty ∨ ¬fracPart.isEmpty) then
      some ((sign : Rat) * ((digitsVal intPart : Rat) +
        (digitsVal fracPart : Rat) / ((10 : Rat) ^ fracPart.length)))
    else Option.none
  | _ => Option.none

/-- Python float(str) on the strings this app stores: optional surrounding
whitespace, an optional sign, then decimal digits with an optional single
point (at least one digit overall); other accepted float syntax
(exponents, inf, nan, underscores) does not occur in this app and is
modelled as raising. none models the ValueError. -/
def pyFloat? (s : String) : Option Rat :=
  match stripChars s.toList with
  | [] => Option.none
  | '-' :: rest => pyFloatCore? (-1) rest
  | '+' :: rest => pyFloatCore? 1 rest
  | cs => pyFloatCore? 1 cs

/-- Key of the rating sort (src/project/app.py line 445):
float(x.get("rating", 0)) is 0 only when the rating key is absent; a
value of None raises TypeError and an unparsable string raises
ValueError, both modelled as none. -/
def rating_key? (f : Favorite) : Option Rat :=
  match f.rating with
  | Option.none => some 0
  | some .none => Option.none
  | some (.str s) => pyFloat? s
  | some (.int n) => some (n : Rat)
  | some (.float q) => some q
  | some (.list _) => Option.none

/-- The rating key with a default, only ever applied when every key is
defined. -/
def ratingKeyD (f : Favorite) : Rat := (rating_key? f).getD 0

/-- Key of the release-date sort (src/project/app.py line 446): the empty
string for an absent key; a present None fails every string comparison
(TypeError), modelled as none; only strings and None occur as release
dates in this app. -/
def release_key? (f : Favorite) : Option String :=
  match f.release_date with
  | Option.none => some ""
  | some (.str s) => some s
  | some _ => Option.none

/-- The release key with a default, only ever applied when every key is
defined or at most one favorite exists. -/
def releaseKeyD (f : Favorite) : String := (release_key? f).getD ""

/-- Comparator of sorted(key=rating, reverse=not reverse_sort): with the
reverse query flag off the sort is descending by key, with it on
ascending. Equal keys compare true both ways, so mergeSort keeps their
original order, as the stable Python sort does. -/
def ratingLe (rev : Bool) (a b : Favorite) : Bool :=
  if rev then decide (ratingKeyD a ≤ ratingKeyD b)
  else decide (ratingKeyD b ≤ ratingKeyD a)

/-- Comparator of sorted(key=release, reverse=not reverse_sort). -/
def releaseLe (rev : Bool) (a b : Favorite) : Bool :=
  if rev then decide (releaseKeyD a ≤ releaseKeyD b)
  else decide (releaseKeyD b ≤ releaseKeyD a)

/-- Model of the sorting of the my-list view (src/project/app.py lines
440 to 452). sorted() computes every key before comparing, so the rating
sort raises as soon as any favorite (even a single one) has an undefined
rating key; the release keys are cheap lookups and only the comparisons
raise, which happens exactly when at least two favorites are present and
some date value is None, since every element then takes part in at least
one comparison; otherwise the favorites are stably sorted by the chosen
key, descending unless the reverse flag is set; any other sort key keeps
insertion order, reversed exactly when the flag is set. -/
def my_list_favorites (favs : List Favorite) (sort_by : String) (rev : Bool) :
    Except Unit (List Favorite) :=
  if sort_by = "rating" then
    if favs.all (fun f => (rating_key? f).isSome) then
      .ok (favs.mergeSort (ratingLe rev))
    else .error ()
  else if sort_by = "release" then
    if 2 ≤ favs.length && !(favs.all (fun f => (release_key? f).isSome)) then
      .error ()
    else .ok (favs.mergeSort (releaseLe rev))
  else if rev then .ok favs.reverse
  else .ok favs

/-- Helper: the rating comparator is transitive. -/
theorem ratingLe_trans (rev : Bool) (a b c : Favorite) :
    ratingLe rev a b = true → ratingLe rev b c = true → ratingLe rev a c = true := by
  cases rev with
  | false =>
    simp only [ratingLe, Bool.false_eq_true, if_false, decide_eq_true_eq]
    intro h₁ h₂
    exact le_trans h₂ h₁
  | true =>
    simp only [ratingLe, if_true, decide_eq_true_eq]
    intro h₁ h₂
    exact le_trans h₁ h₂

/-- Helper: the rating comparator is total. -/
theorem ratingLe_total (rev : Bool) (a b : Favorite) :
    (ratingLe rev a b || ratingLe rev b a) = true := by
  cases rev <;> simp [ratingLe] <;> exact le_total _ _

/-- Helper: the release comparator is transitive. -/
theorem releaseLe_trans (rev : Bool) (a b c : Favorite) :
    releaseLe rev a b = true → releaseLe rev b c = true → releaseLe rev a c = true := by
  cases rev with
  | false =>
    simp only [releaseLe, Bool.false_eq_true, if_false, decide_eq_true_eq]
    intro h₁ h₂
    exact le_trans h₂ h₁
  | true =>
    simp only [releaseLe, if_true, decide_eq_true_eq]
    intro h₁ h₂
    exact le_trans h₁ h₂

/-- Helper: the release comparator is total. -/
theorem releaseLe_total (rev : Bool) (a b : Favorite) :
    (releaseLe rev a b || releaseLe rev b a) = true := by
  cases rev <;> simp [releaseLe] <;> exact le_total _ _

/-- Helper: the rating comparator spelt as an ordering on keys. -/
theorem ratingLe_iff (rev : Bool) (a b : Favorite) :
    ratingLe rev a b = true ↔
      (if rev then ratingKeyD a ≤ ratingKeyD b else ratingKeyD b ≤ ratingKeyD a) := by
  cases rev <;> simp [ratingLe]

/-- Helper: the release comparator spelt as an ordering on keys. -/
theorem releaseLe_iff (rev : Bool) (a b : Favorite) :
    releaseLe rev a b = true ↔
      (if rev then releaseKeyD a ≤ releaseKeyD b else releaseKeyD b ≤ releaseKeyD a) := by
  cases rev <;> simp [releaseLe]

/-- Helper: a stable mergeSort leaves the elements the comparator cannot
tell apart in their original order: filtering by a predicate on which the
comparator is constantly true commutes with the sort. -/
theorem mergeSort_stable_filter {α : Type} (le : α → α → Bool)
    (htrans : ∀ a b c, le a b = true → le b c = true → le a c = true)
    (htotal : ∀ a b, (le a b || le b a) = true)
    (l : List α) (p : α → Bool)
    (hp : ∀ a b, p a = true → p b = true → le a b = true) :
    (l.mergeSort le).filter p = l.filter p := by
  have hpw : (l.filter p).Pairwise (fun a b => le a b = true) :=
    List.pairwise_of_forall_mem_list (fun a ha b hb =>
      hp a b (List.mem_filter.mp ha).2 (List.mem_filter.mp hb).2)
  have hsub : (l.filter p).Sublist (l.mergeSort le) :=
    List.sublist_mergeSort htrans htotal hpw (List.filter_sublist l)
  have hsub₂ : (l.filter p).Sublist ((l.mergeSort le).filter p) := by
    have h₁ := hsub.filter p
    have h₂ : (l.filter p).filter p = l.filter p := by
      rw [List.filter_filter]
      simp
    rwa [h₂] at h₁
  have hlen : (l.filter p).length = ((l.mergeSort le).filter p).length :=
    ((List.mergeSort_perm l le).filter p).length_eq.symm
  exact (hsub₂.eq_of_length hlen).symm

/-- Counterexample to claim C3 as stated: a favorite whose rating value is
the unparsable string N/A makes the rating sort raise instead of
defaulting to 0, and with the reverse flag unset the rating sort is
descending rather than ascending: already-descending ratings 2, 1 come
back unchanged as 2, 1 instead of ascending 1, 2. -/
theorem my_list_cex :
    my_list_favorites [{ rating := some (.str "N/A") }] "rating" false =
      .error () ∧
    my_list_favorites
        [{ rating := some (.str "2") }, { rating := some (.str "1") }]
        "rating" false =
      .ok [{ rating := some (.str "2") }, { rating := some (.str "1") }] := by
  constructor
  · rw [my_list_favorites, if_pos rfl, if_neg (by decide)]
  · rw [my_list_favorites, if_pos rfl, if_pos (by decide)]
    rw [List.mergeSort_of_sorted (by decide)]

/-- Helper: the rating sort raises exactly when some favorite has an
undefined rating key. -/
theorem my_list_rating_error_iff (favs : List Favorite) (rev : Bool) :
    my_list_favorites favs "rating" rev = .error () ↔
      ∃ f ∈ favs, rating_key? f = Option.none := by
  rw [my_list_favorites, if_pos rfl]
  by_cases hall : favs.all (fun f => (rating_key? f).isSome) = true
  · rw [if_pos hall]
    constructor
    · intro h
      simp at h
    · rintro ⟨f, hf, hn⟩
      have hs := List.all_eq_true.mp hall f hf
      rw [hn] at hs
      simp at hs
  · rw [if_neg hall]
    refine iff_of_true rfl ?_
    rw [List.all_eq_true] at hall
    push_neg at hall
    rcases hall with ⟨f, hf, hn⟩
    refine ⟨f, hf, ?_⟩
    cases hrk : rating_key? f with
    | none => rfl
    | some q =>
      rw [hrk] at hn
      simp at hn

/-- Claim C3 (amended): the my-list sort supports the key rating (numeric,
with 0 only when the rating key is absent: a present None or unparsable
value raises rather than defaulting) and the key release (lexicographic
string compare, an absent date read as the empty string, the least
string); either keyed sort is stable and DESCENDING when the reverse flag
is unset, ascending when it is set; any other sort key keeps insertion
order, reversed exactly when the flag is set. -/
theorem my_list_sorting (favs : List Favorite) (rev : Bool) (sb : String) :
    (my_list_favorites favs "rating" rev = .error () ↔
      ∃ f ∈ favs, rating_key? f = Option.none) ∧
    (∀ f : Favorite, f.rating = Option.none → rating_key? f = some 0) ∧
    (∀ l, my_list_favorites favs "rating" rev = .ok l →
      l.Perm favs ∧
      l.Pairwise (fun a b => if rev then ratingKeyD a ≤ ratingKeyD b
        else ratingKeyD b ≤ ratingKeyD a) ∧
      ∀ q : Rat, l.filter (fun f => ratingKeyD f = q) =
        favs.filter (fun f => ratingKeyD f = q)) ∧
    (∀ l, my_list_favorites favs "release" rev = .ok l →
      l.Perm favs ∧
      l.Pairwise (fun a b => if rev then releaseKeyD a ≤ releaseKeyD b
        else releaseKeyD b ≤ releaseKeyD a) ∧
      ∀ s : String, l.filter (fun f => releaseKeyD f = s) =
        favs.filter (fun f => releaseKeyD f = s)) ∧
    (∀ f : Favorite, f.release_date = Option.none →
      releaseKeyD f = "" ∧ ∀ s : String, releaseKeyD f ≤ s) ∧
    (sb ≠ "rating" → sb ≠ "release" →
      my_list_favorites favs sb rev = .ok (if rev then favs.reverse else favs)) := by
  refine ⟨my_list_rating_error_iff favs rev, ?_, ?_, ?_, ?_, ?_⟩
  · intro f hf
    rw [rating_key?, hf]
  · intro l h
    rw [my_list_favorites, if_pos rfl] at h
    by_cases hall : favs.all (fun f => (rating_key? f).isSome) = true
    · rw [if_pos hall] at h
      obtain rfl : favs.mergeSort (ratingLe rev) = l := by
        injection h with h₂
      refine ⟨List.mergeSort_perm favs (ratingLe rev), ?_, ?_⟩
      · have hs := List.sorted_mergeSort (ratingLe_trans rev) (ratingLe_total rev) favs
        exact hs.imp (fun hab => (ratingLe_iff rev _ _).mp hab)
      · intro q
        refine mergeSort_stable_filter (ratingLe rev) (ratingLe_trans rev)
          (ratingLe_total rev) favs (fun f => ratingKeyD f = q) ?_
        intro a b ha hb
        have ha₂ : ratingKeyD a = q := by simpa using ha
        have hb₂ : ratingKeyD b = q := by simpa using hb
        cases rev <;> simp [ratingLe, ha₂, hb₂]
    · rw [if_neg hall] at h
      simp at h
  · intro l h
    rw [my_list_favorites, if_neg (by decide), if_pos rfl] at h
    by_cases hc : (2 ≤ favs.length && !(favs.all (fun f => (release_key? f).isSome)))
        = true
    · rw [if_pos hc] at h
      simp at h
    · rw [if_neg hc] at h
      obtain rfl : favs.mergeSort (releaseLe rev) = l := by
        injection h with h₂
      refine ⟨List.mergeSort_perm favs (releaseLe rev), ?_, ?_⟩
      · have hs := List.sorted_mergeSort (releaseLe_trans rev) (releaseLe_total rev) favs
        exact hs.imp (fun hab => (releaseLe_iff rev _ _).mp hab)
      · intro s
        refine mergeSort_stable_filter (releaseLe rev) (releaseLe_trans rev)
          (releaseLe_total rev) favs (fun f => releaseKeyD f = s) ?_
        intro a b ha hb
        have ha₂ : releaseKeyD a = s := by simpa using ha
        have hb₂ : releaseKeyD b = s := by simpa using hb
        cases rev <;> simp [releaseLe, ha₂, hb₂]
  · intro f hf
    constructor
    · simp [releaseKeyD, release_key?, hf]
    · intro s
      simp only [releaseKeyD, release_key?, hf]
      rw [String.le_iff_toList_le]
      exact List.nil_le
  · intro h₁ h₂
    rw [my_list_favorites, if_neg h₁, if_neg h₂]
    cases rev <;> rfl

end MovieApp
